import Mathlib

/-!
Shallow embedding of the Kassa.ai payment broker (`src/server.js`):
the canonicalization / HMAC-signing protocol of the create-payment
handler and the payment-callback handler, in both the strict variant
and the demo-fallback variant of the server.

JavaScript objects with string keys are embedded as association lists
`List (String × JSValue)` (JSON objects have pairwise-distinct keys;
theorems that need this carry a `Nodup` hypothesis on the key list).
The HMAC-SHA256 primitive `crypto.createHmac('sha256', secret)` is an
external library call, not code of this repository; it is embedded as
an explicit function parameter `hmac : String → String → String`
(secret and message to hex digest).  Claims whose truth needs the
absence of HMAC collisions state that assumption as an explicit
message-injectivity hypothesis (the standard ideal-MAC idealization);
claims that only need equal messages to yield equal digests hold for
every such function.
-/

/-- A scalar JavaScript value as it can occur in a request body or a
payment payload.  Numbers are modelled as rationals (`amount` inputs
are decimal numbers; every number the server itself writes into a
payload is an integer). -/
inductive JSValue where
  | str (s : String)
  | num (q : ℚ)
  | bool (b : Bool)
  | null
  | undef
  deriving DecidableEq, Repr

/-- JavaScript truthiness, as used by `if (!amount || !orderId || !email)`
(server.js:40): `undefined`, `null`, `''`, `0` and `false` are falsy. -/
def truthy : JSValue → Bool
  | .str s => s ≠ ""
  | .num q => q ≠ 0
  | .bool b => b
  | .null => false
  | .undef => false

/-- The emptiness test of the pruning loop (server.js:64):
`v === null || v === undefined || v === ''`. -/
def isEmptyVal : JSValue → Bool
  | .null => true
  | .undef => true
  | .str s => s = ""
  | _ => false

/-- String interpolation of a value, as in the template literal of
server.js:72.  Integer numbers render in decimal; the
shortest-round-trip float printing of JavaScript for non-integer
numbers is not modelled (no claim depends on it, every number the
server writes into a signed payload is an integer). -/
def jsStr : JSValue → String
  | .str s => s
  | .num q => if q.den = 1 then toString q.num else toString q
  | .bool true => "true"
  | .bool false => "false"
  | .null => "null"
  | .undef => "undefined"

/-- Property read `obj[k]`: the value of the first entry with key `k`,
`undefined` when the key is absent. -/
def lookupV : List (String × JSValue) → String → JSValue
  | [], _ => .undef
  | p :: t, k => if p.1 = k then p.2 else lookupV t k

/-- `delete obj[k]` (server.js:132): remove the entry with key `k`. -/
def eraseKey : List (String × JSValue) → String → List (String × JSValue)
  | [], _ => []
  | p :: t, k => if p.1 = k then eraseKey t k else p :: eraseKey t k

/-- `obj[k] = v` on an existing key: replace the value, keep the position. -/
def setKey : List (String × JSValue) → String → JSValue → List (String × JSValue)
  | [], _, _ => []
  | p :: t, k, v => (if p.1 = k then (k, v) else p) :: setKey t k v

/-- `Object.keys(obj)`. -/
def keysOf (l : List (String × JSValue)) : List String :=
  l.map Prod.fst

/-- The pruning loop of the create-payment handler (server.js:63-67):
drop every entry whose value is `null`, `undefined` or `''`. -/
def pruneEmpty (l : List (String × JSValue)) : List (String × JSValue) :=
  l.filter (fun p => !isEmptyVal p.2)

/-- `Array.prototype.join('&')` (server.js:73). -/
def joinAmp : List String → String
  | [] => ""
  | [s] => s
  | s :: t => s ++ "&" ++ joinAmp t

/-- Lexicographic comparison of character lists, the default comparator
of `Array.prototype.sort()` (code-unit order; every key the server sorts
is ASCII, where code-unit and code-point order agree). -/
def strLeB : List Char → List Char → Bool
  | [], _ => true
  | _ :: _, [] => false
  | a :: s, b :: t => if a = b then strLeB s t else decide (a < b)

/-- The ascending string order used to sort the keys. -/
@[reducible]
def keyLE (a b : String) : Prop :=
  strLeB a.data b.data = true

instance : DecidableRel keyLE :=
  fun a b => inferInstanceAs (Decidable (strLeB a.data b.data = true))

/-- `Object.keys(obj).sort()` (server.js:70-71): the keys in ascending
lexicographic order. -/
def sortedKeys (l : List (String × JSValue)) : List String :=
  (keysOf l).insertionSort keyLE

/-- The canonical string of server.js:70-73 and 134-137:
`Object.keys(data).sort().map(key => key + '=' + data[key]).join('&')`.
Values are inserted verbatim, with no URL-encoding. -/
def signStringOf (l : List (String × JSValue)) : String :=
  joinAmp ((sortedKeys l).map (fun k => k ++ "=" ++ jsStr (lookupV l k)))

/-- The signing computation of the create-payment handler
(server.js:63-78): prune empty fields, canonicalize, HMAC. -/
def signFields (hmac : String → String → String) (secret : String)
    (l : List (String × JSValue)) : String :=
  hmac secret (signStringOf (pruneEmpty l))

/-- The canonical encoder as one unit (pruning followed by the
sorted `key=value` join), the composition the spec calls
CanonicalEncoder. -/
def canonicalEncode (l : List (String × JSValue)) : String :=
  signStringOf (pruneEmpty l)

/-- The outbound payload of the create-payment handler for a field
set `fields`: the fields with the signature attached last
(server.js:80, `paymentData.sign = signature`). -/
def signedPayload (hmac : String → String → String) (secret : String)
    (fields : List (String × JSValue)) : List (String × JSValue) :=
  fields ++ [("sign", .str (signFields hmac secret fields))]

/-- The terminal actions of the status dispatch switch
(server.js:150-161); `noop` is the silent fall-through of an
unrecognized status. -/
inductive StatusAction where
  | succeeded
  | failed
  | canceled
  | noop
  deriving DecidableEq, Repr

/-- The `switch (callbackData.status)` dispatch (server.js:150-161);
`===` comparison against the three terminal literals, anything else
falls through. -/
def statusAction : JSValue → StatusAction
  | .str "succeeded" => .succeeded
  | .str "failed" => .failed
  | .str "canceled" => .canceled
  | _ => .noop

/-- The observable outcome of one callback request: HTTP status code,
response body, and which status-dispatch branch ran. -/
structure CallbackResult where
  httpStatus : Nat
  body : String
  action : StatusAction
  deriving DecidableEq, Repr

/-- The canonical string recomputed by the callback handler
(server.js:134-137): the payload minus its `sign` field, canonicalized
directly — the handler applies no pruning of empty values. -/
def callbackSignString (callbackData : List (String × JSValue)) : String :=
  signStringOf (eraseKey callbackData "sign")

/-- The payment-callback handler of the strict variant
(server.js:120-168): extract and delete `sign`, recompute the HMAC
over the remainder, reject with 400 on mismatch (`sign !== expectedSign`
is a strict comparison, so a missing or non-string `sign` simply fails
it), otherwise dispatch on the status and acknowledge with 200 OK. -/
def paymentCallback (hmac : String → String → String) (secret : String)
    (callbackData : List (String × JSValue)) : CallbackResult :=
  if lookupV callbackData "sign"
      = JSValue.str (hmac secret (callbackSignString callbackData)) then
    ⟨200, "OK", statusAction (lookupV (eraseKey callbackData "sign") "status")⟩
  else
    ⟨400, "Invalid signature", .noop⟩

/-- The payment-callback handler of the demo-fallback variant
(server.js:321-371): signature verification runs only when the
configured merchant id is not the demo sentinel; in demo mode the
payload (with its `sign` field untouched) goes straight to the status
dispatch and the 200 OK acknowledgment. -/
def paymentCallbackDemo (hmac : String → String → String)
    (secret merchantId : String)
    (callbackData : List (String × JSValue)) : CallbackResult :=
  if merchantId ≠ "demo_merchant_id" then
    if lookupV callbackData "sign"
        = JSValue.str (hmac secret (callbackSignString callbackData)) then
      ⟨200, "OK", statusAction (lookupV (eraseKey callbackData "sign") "status")⟩
    else
      ⟨400, "Invalid signature", .noop⟩
  else
    ⟨200, "OK", statusAction (lookupV callbackData "status")⟩

/-- The destructured create-payment request body (server.js:37):
each field is `undefined` when absent. -/
structure CreateReq where
  amount : JSValue
  orderId : JSValue
  email : JSValue
  phone : JSValue
  description : JSValue
  paymentMethod : JSValue
  deriving DecidableEq, Repr

/-- JavaScript `a || b`: the left operand when truthy, otherwise the
right (server.js:53, 55, 59). -/
def jsOr (v dflt : JSValue) : JSValue :=
  if truthy v then v else dflt

/-- JavaScript `Math.round`: round to the nearest integer, ties toward
positive infinity (`Math.round(x) = floor(x + 1/2)`). -/
def jsRound (q : ℚ) : ℤ :=
  ⌊q + 1/2⌋

/-- `Math.round(amount * 100)` (server.js:50).  A non-numeric `amount`
would go through JavaScript ToNumber coercion, which is not modelled
(the claims about the conversion all fix `amount` to a number). -/
def amountMinor : JSValue → ℤ
  | .num q => jsRound (q * 100)
  | _ => 0

/-- Round to the nearest integer with ties away from zero — the
rounding rule named by the spec (§3).  Modelled from the spec's words,
to be compared against `jsRound`, the rule the code uses. -/
def roundHalfAwayFromZero (q : ℚ) : ℤ :=
  if q - ⌊q⌋ < 1/2 then ⌊q⌋
  else if 1/2 < q - ⌊q⌋ then ⌊q⌋ + 1
  else if 0 ≤ q then ⌊q⌋ + 1
  else ⌊q⌋

/-- The `paymentData` object literal of the create-payment handler
(server.js:48-60), before pruning and signing. -/
def buildPaymentData (merchantId baseUrl : String) (req : CreateReq) :
    List (String × JSValue) :=
  [("merchant_id", .str merchantId),
   ("amount", .num ((amountMinor req.amount : ℤ) : ℚ)),
   ("currency", .str "RUB"),
   ("order_id", req.orderId),
   ("description", jsOr req.description (.str ("Оплата заказа " ++ jsStr req.orderId))),
   ("customer_email", req.email),
   ("customer_phone", jsOr req.phone (.str "")),
   ("success_url", .str (baseUrl ++ "/success?order_id=" ++ jsStr req.orderId)),
   ("fail_url", .str (baseUrl ++ "/fail?order_id=" ++ jsStr req.orderId)),
   ("callback_url", .str (baseUrl ++ "/api/payment-callback")),
   ("payment_method", jsOr req.paymentMethod (.str "card"))]

/-- Outcome of the create-payment handler up to the outbound HTTP
submission: either the 400 validation rejection (server.js:40-45), or
the signed payload it builds and submits (the submission itself and
the processor's answer are external collaborators). -/
inductive CreateResult where
  | validationError (httpStatus : Nat) (success : Bool) (error : String)
  | request (paymentData : List (String × JSValue))
  deriving DecidableEq, Repr

/-- The create-payment handler of the strict variant (server.js:35-91):
validate, build the payload, prune empty fields, sign the pruned set,
attach the signature. -/
def createPayment (hmac : String → String → String)
    (secret merchantId baseUrl : String) (req : CreateReq) : CreateResult :=
  if !(truthy req.amount && truthy req.orderId && truthy req.email) then
    .validationError 400 false "Необходимые поля: amount, orderId, email"
  else
    .request (signedPayload hmac secret
      (pruneEmpty (buildPaymentData merchantId baseUrl req)))

/-- A stand-in MAC used by concrete witnesses and counterexamples:
the message itself.  It is injective in the message, so it satisfies
the ideal-MAC hypothesis, and any statement that only compares digests
of equal messages holds for it exactly as for the real HMAC. -/
def mockHmac : String → String → String :=
  fun _ message => message

/-! ### Helper lemmas -/

theorem strLeB_total : ∀ (s t : List Char), strLeB s t = true ∨ strLeB t s = true
  | [], _ => Or.inl rfl
  | _ :: _, [] => Or.inr rfl
  | a :: s, b :: t => by
    by_cases hab : a = b
    · subst hab
      simp only [strLeB, if_pos rfl]
      exact strLeB_total s t
    · have hba : ¬ b = a := fun h => hab h.symm
      simp only [strLeB, if_neg hab, if_neg hba, decide_eq_true_eq]
      rcases lt_or_gt_of_ne hab with h | h
      · exact Or.inl h
      · exact Or.inr h

theorem strLeB_trans : ∀ (s t u : List Char),
    strLeB s t = true → strLeB t u = true → strLeB s u = true
  | [], _, _, _, _ => rfl
  | _ :: _, [], _, h1, _ => by simp [strLeB] at h1
  | _ :: _, _ :: _, [], _, h2 => by simp [strLeB] at h2
  | a :: s, b :: t, c :: u, h1, h2 => by
    by_cases hab : a = b <;> by_cases hbc : b = c
    · subst hab
      subst hbc
      simp only [strLeB, if_pos rfl] at h1 h2 ⊢
      exact strLeB_trans s t u h1 h2
    · subst hab
      simpa [strLeB, hbc] using h2
    · subst hbc
      simpa [strLeB, hab] using h1
    · have h1' : a < b := by simpa [strLeB, hab] using h1
      have h2' : b < c := by simpa [strLeB, hbc] using h2
      have hac : a < c := lt_trans h1' h2'
      simp [strLeB, ne_of_lt hac]
      exact hac

theorem strLeB_antisymm : ∀ (s t : List Char),
    strLeB s t = true → strLeB t s = true → s = t
  | [], [], _, _ => rfl
  | [], _ :: _, _, h2 => by simp [strLeB] at h2
  | _ :: _, [], h1, _ => by simp [strLeB] at h1
  | a :: s, b :: t, h1, h2 => by
    by_cases hab : a = b
    · subst hab
      simp only [strLeB, if_pos rfl] at h1 h2
      rw [strLeB_antisymm s t h1 h2]
    · have hba : ¬ b = a := fun h => hab h.symm
      have h1' : a < b := by simpa [strLeB, hab] using h1
      have h2' : b < a := by simpa [strLeB, hba] using h2
      exact absurd h2' (lt_asymm h1')

instance : IsTotal String keyLE :=
  ⟨fun a b => strLeB_total a.data b.data⟩

instance : IsTrans String keyLE :=
  ⟨fun a b c => strLeB_trans a.data b.data c.data⟩

theorem string_data_inj {s t : String} (h : s.data = t.data) : s = t := by
  cases s
  cases t
  exact congrArg String.mk h

instance : IsAntisymm String keyLE :=
  ⟨fun a b h1 h2 => string_data_inj (strLeB_antisymm a.data b.data h1 h2)⟩

theorem strAppend_cancel_left (s t u : String) (h : s ++ t = s ++ u) : t = u := by
  have hd : s.data ++ t.data = s.data ++ u.data := by
    have := congrArg String.data h
    simpa [String.data_append] using this
  exact string_data_inj (List.append_cancel_left hd)

theorem joinAmp_cons (x : String) (L : List String) (h : L ≠ []) :
    joinAmp (x :: L) = x ++ "&" ++ joinAmp L := by
  cases L with
  | nil => exact absurd rfl h
  | cons y t => rfl

theorem joinAmp_one_diff :
    ∀ (xs : List String) (a b : String) (ys : List String),
      joinAmp (xs ++ a :: ys) = joinAmp (xs ++ b :: ys) → a = b := by
  intro xs
  induction xs with
  | nil =>
    intro a b ys h
    cases ys with
    | nil => simpa [joinAmp] using h
    | cons y t =>
      have h' : a ++ ("&" ++ joinAmp (y :: t)) = b ++ ("&" ++ joinAmp (y :: t)) := by
        simpa [joinAmp_cons, List.nil_append, String.append_assoc] using h
      have hlen : a.data.length = b.data.length := by
        have hl := congrArg String.length h'
        simpa [String.length_append] using hl
      have hd : a.data ++ ("&" ++ joinAmp (y :: t)).data
          = b.data ++ ("&" ++ joinAmp (y :: t)).data := by
        have := congrArg String.data h'
        simpa [String.data_append] using this
      exact string_data_inj (List.append_inj hd hlen).1
  | cons x t ih =>
    intro a b ys h
    have hne₁ : t ++ a :: ys ≠ [] := by simp
    have hne₂ : t ++ b :: ys ≠ [] := by simp
    have h1 : x ++ ("&" ++ joinAmp (t ++ a :: ys))
        = x ++ ("&" ++ joinAmp (t ++ b :: ys)) := by
      simpa [joinAmp_cons _ _ hne₁, joinAmp_cons _ _ hne₂, String.append_assoc]
        using h
    have h2 := strAppend_cancel_left _ _ _ h1
    have h3 := strAppend_cancel_left "&" _ _ h2
    exact ih a b ys h3

@[simp]
theorem keysOf_cons (p : String × JSValue) (l : List (String × JSValue)) :
    keysOf (p :: l) = p.1 :: keysOf l := rfl

theorem keysOf_setKey (l : List (String × JSValue)) (k : String) (v : JSValue) :
    keysOf (setKey l k v) = keysOf l := by
  induction l with
  | nil => rfl
  | cons p t ih =>
    by_cases hp : p.1 = k
    · simp [setKey, keysOf, hp, ih]
      simpa [keysOf] using ih
    · simp [setKey, keysOf, hp]
      simpa [keysOf] using ih

theorem lookupV_setKey_self (l : List (String × JSValue)) (k : String)
    (v : JSValue) (hk : k ∈ keysOf l) : lookupV (setKey l k v) k = v := by
  induction l with
  | nil => simp [keysOf] at hk
  | cons p t ih =>
    by_cases hp : p.1 = k
    · simp [setKey, lookupV, hp]
    · have hk' : k ∈ keysOf t := by
        rcases (by simpa [keysOf] using hk : k = p.1 ∨ k ∈ keysOf t) with h | h
        · exact absurd h.symm hp
        · exact h
      simpa [setKey, lookupV, hp] using ih hk'

theorem lookupV_setKey_ne (l : List (String × JSValue)) (k k' : String)
    (v : JSValue) (hne : k' ≠ k) :
    lookupV (setKey l k v) k' = lookupV l k' := by
  induction l with
  | nil => rfl
  | cons p t ih =>
    by_cases hp : p.1 = k
    · have hkk : ¬ k = k' := fun h => hne h.symm
      have hpk : ¬ p.1 = k' := fun h => hne (h.symm.trans hp)
      simp [setKey, lookupV, hp, hkk, hpk, ih]
    · by_cases hp' : p.1 = k'
      · simp [setKey, lookupV, hp, hp', hne]
      · simp [setKey, lookupV, hp, hp', ih]

theorem lookupV_eraseKey_ne (l : List (String × JSValue)) (k k' : String)
    (hne : k' ≠ k) : lookupV (eraseKey l k) k' = lookupV l k' := by
  have hkk : ¬ k = k' := fun h => hne h.symm
  induction l with
  | nil => rfl
  | cons p t ih =>
    by_cases hp : p.1 = k
    · have hpk : ¬ p.1 = k' := fun h => hne (h.symm.trans hp)
      simp [eraseKey, lookupV, hp, hpk, hkk, ih]
    · by_cases hp' : p.1 = k'
      · simp [eraseKey, lookupV, hp, hp', hne]
      · simp [eraseKey, lookupV, hp, hp', ih]

theorem lookupV_append_right (l m : List (String × JSValue)) (k : String)
    (h : ∀ p ∈ l, p.1 ≠ k) : lookupV (l ++ m) k = lookupV m k := by
  induction l with
  | nil => rfl
  | cons p t ih =>
    have hp : ¬ p.1 = k := h p (List.mem_cons_self p t)
    simpa [lookupV, hp] using ih (fun q hq => h q (List.mem_cons_of_mem p hq))

theorem eraseKey_append_sign (l : List (String × JSValue)) (k : String)
    (x : JSValue) (h : ∀ p ∈ l, p.1 ≠ k) :
    eraseKey (l ++ [(k, x)]) k = l := by
  induction l with
  | nil => simp [eraseKey]
  | cons p t ih =>
    have hp : ¬ p.1 = k := h p (List.mem_cons_self p t)
    simpa [eraseKey, hp] using ih (fun q hq => h q (List.mem_cons_of_mem p hq))

theorem pruneEmpty_eq_self (l : List (String × JSValue))
    (h : ∀ p ∈ l, isEmptyVal p.2 = false) : pruneEmpty l = l :=
  List.filter_eq_self.mpr (fun p hp => by simp [h p hp])

theorem keysOf_nodup_val_eq (l : List (String × JSValue)) (k : String)
    (v w : JSValue) (hnd : (keysOf l).Nodup)
    (h1 : (k, v) ∈ l) (h2 : (k, w) ∈ l) : v = w := by
  induction l with
  | nil => cases h1
  | cons p t ih =>
    have hmemk : p.1 ∉ keysOf t := (List.nodup_cons.mp (by simpa using hnd)).1
    have hndt : (keysOf t).Nodup := (List.nodup_cons.mp (by simpa using hnd)).2
    rcases List.mem_cons.mp h1 with h1h | h1t
    · rcases List.mem_cons.mp h2 with h2h | h2t
      · have hvw : (k, v) = (k, w) := h1h.trans h2h.symm
        exact congrArg Prod.snd hvw
      · exfalso
        apply hmemk
        have hk : k ∈ keysOf t := List.mem_map_of_mem Prod.fst h2t
        have hpk : p.1 = k := congrArg Prod.fst h1h.symm
        rwa [hpk]
    · rcases List.mem_cons.mp h2 with h2h | h2t
      · exfalso
        apply hmemk
        have hk : k ∈ keysOf t := List.mem_map_of_mem Prod.fst h1t
        have hpk : p.1 = k := congrArg Prod.fst h2h.symm
        rwa [hpk]
      · exact ih hndt h1t h2t

theorem lookupV_perm {l₁ l₂ : List (String × JSValue)} (hp : l₁.Perm l₂) :
    ∀ (hnd : (keysOf l₁).Nodup) (k : String), lookupV l₁ k = lookupV l₂ k := by
  induction hp with
  | nil => intro _ _; rfl
  | cons p hpt ih =>
    intro hnd k
    have hndt := (List.nodup_cons.mp (by simpa using hnd)).2
    by_cases hpk : p.1 = k
    · simp [lookupV, hpk]
    · simp [lookupV, hpk, ih hndt k]
  | swap x y t =>
    intro hnd k
    have hxy : y.1 ≠ x.1 := by
      have h := by simpa using hnd
      exact h.1.1
    by_cases h1 : y.1 = k
    · have h2 : ¬ x.1 = k := fun h => hxy (h1.trans h.symm)
      simp [lookupV, h1, h2]
    · by_cases h2 : x.1 = k
      · simp [lookupV, h1, h2]
      · simp [lookupV, h1, h2]
  | trans h₁ h₂ ih₁ ih₂ =>
    intro hnd k
    have hnd₂ : (keysOf _).Nodup := ((h₁.map Prod.fst).nodup_iff).mp hnd
    rw [ih₁ hnd k, ih₂ hnd₂ k]

theorem sortedKeys_perm {l₁ l₂ : List (String × JSValue)} (hp : l₁.Perm l₂) :
    sortedKeys l₁ = sortedKeys l₂ :=
  List.eq_of_perm_of_sorted
    ((List.perm_insertionSort _ _).trans
      ((hp.map Prod.fst).trans (List.perm_insertionSort _ _).symm))
    (List.sorted_insertionSort _ _) (List.sorted_insertionSort _ _)

theorem signString_perm {l₁ l₂ : List (String × JSValue)}
    (hnd : (keysOf l₁).Nodup) (hp : l₁.Perm l₂) :
    signStringOf l₁ = signStringOf l₂ := by
  unfold signStringOf
  rw [show sortedKeys l₂ = sortedKeys l₁ from (sortedKeys_perm hp).symm]
  exact congrArg joinAmp
    (List.map_congr_left (fun k _ => by rw [lookupV_perm hp hnd k]))

theorem keysOf_pruneEmpty_nodup {l : List (String × JSValue)}
    (hnd : (keysOf l).Nodup) : (keysOf (pruneEmpty l)).Nodup :=
  hnd.sublist ((List.filter_sublist l).map Prod.fst)

theorem mem_sortedKeys {l : List (String × JSValue)} {k : String} :
    k ∈ sortedKeys l ↔ k ∈ keysOf l :=
  (List.perm_insertionSort _ _).mem_iff

theorem sortedKeys_nodup {l : List (String × JSValue)}
    (hnd : (keysOf l).Nodup) : (sortedKeys l).Nodup :=
  ((List.perm_insertionSort _ _).nodup_iff).mpr hnd

theorem sortedKeys_setKey (l : List (String × JSValue)) (k : String)
    (v : JSValue) : sortedKeys (setKey l k v) = sortedKeys l := by
  unfold sortedKeys
  rw [keysOf_setKey]

theorem signString_setKey_ne (l : List (String × JSValue)) (k : String)
    (v' : JSValue) (hnd : (keysOf l).Nodup) (hk : k ∈ keysOf l)
    (hv : jsStr v' ≠ jsStr (lookupV l k)) :
    signStringOf (setKey l k v') ≠ signStringOf l := by
  obtain ⟨xs, ys, hsplit⟩ := List.append_of_mem (mem_sortedKeys.mpr hk)
  have hsnd : (sortedKeys l).Nodup := sortedKeys_nodup hnd
  rw [hsplit] at hsnd
  have hkxs : k ∉ xs := by
    rcases List.nodup_append.mp hsnd with ⟨_, _, hdisj⟩
    intro hmem
    exact hdisj hmem (List.mem_cons_self k ys)
  have hkys : k ∉ ys := by
    rcases List.nodup_append.mp hsnd with ⟨_, hys, _⟩
    exact (List.nodup_cons.mp hys).1
  have hmap : ∀ x ∈ xs, x ++ "=" ++ jsStr (lookupV (setKey l k v') x)
      = x ++ "=" ++ jsStr (lookupV l x) := by
    intro x hx
    rw [lookupV_setKey_ne l k x v' (fun h => hkxs (h ▸ hx))]
  have hmap' : ∀ x ∈ ys, x ++ "=" ++ jsStr (lookupV (setKey l k v') x)
      = x ++ "=" ++ jsStr (lookupV l x) := by
    intro x hx
    rw [lookupV_setKey_ne l k x v' (fun h => hkys (h ▸ hx))]
  intro heq
  unfold signStringOf at heq
  rw [sortedKeys_setKey, hsplit] at heq
  rw [List.map_append, List.map_append, List.map_cons, List.map_cons] at heq
  rw [List.map_congr_left hmap, List.map_congr_left hmap'] at heq
  rw [lookupV_setKey_self l k v' hk] at heq
  have hseg := joinAmp_one_diff _ _ _ _ heq
  have h1 := strAppend_cancel_left _ _ _
    (by simpa [String.append_assoc] using hseg)
  have h2 := strAppend_cancel_left "=" _ _ h1
  exact hv h2

theorem jsRound_away (q : ℚ) (hq : 0 ≤ q) :
    jsRound q = roundHalfAwayFromZero q := by
  unfold jsRound roundHalfAwayFromZero
  have h1 : (⌊q⌋ : ℚ) ≤ q := Int.floor_le q
  have h2 : q < ⌊q⌋ + 1 := Int.lt_floor_add_one q
  split_ifs with hf1 hf2
  · rw [Int.floor_eq_iff]
    constructor
    · push_cast
      linarith
    · push_cast
      linarith
  · rw [Int.floor_eq_iff]
    constructor
    · push_cast
      linarith
    · push_cast
      linarith
  · push_neg at hf1 hf2
    rw [Int.floor_eq_iff]
    constructor
    · push_cast
      linarith
    · push_cast
      linarith

/-! ### Claim theorems -/

/-- C3: the canonical encoder prunes empty-valued entries, sorts the
remaining keys in ascending lexicographic order, renders each entry as
`key=value` with the value inserted verbatim and joins with `&`; the result
depends only on the key-value set and not on insertion order, and the empty
field set yields the empty string. -/
theorem canonical_encoder_deterministic
    (l₁ l₂ : List (String × JSValue)) (hnd : (keysOf l₁).Nodup)
    (hp : l₁.Perm l₂) :
    canonicalEncode l₁
        = joinAmp ((sortedKeys (pruneEmpty l₁)).map
            (fun k => k ++ "=" ++ jsStr (lookupV (pruneEmpty l₁) k)))
    ∧ canonicalEncode l₁ = canonicalEncode l₂
    ∧ canonicalEncode ([] : List (String × JSValue)) = "" := by
  refine ⟨rfl, ?_, rfl⟩
  unfold canonicalEncode
  exact signString_perm (keysOf_pruneEmpty_nodup hnd) (hp.filter _)

theorem canonical_encoder_deterministic_witness :
    canonicalEncode [("b", JSValue.str "2"), ("a", JSValue.str "1")]
      = canonicalEncode [("a", JSValue.str "1"), ("b", JSValue.str "2")] :=
  (canonical_encoder_deterministic
    [("b", JSValue.str "2"), ("a", JSValue.str "1")]
    [("a", JSValue.str "1"), ("b", JSValue.str "2")]
    (by decide)
    (List.Perm.swap ("a", JSValue.str "1") ("b", JSValue.str "2") [])).2.1

/-- C5: a callback whose `sign` field does not equal the HMAC recomputed
over the canonicalized remainder of the payload is rejected with HTTP 400,
the generic body "Invalid signature", and no status-dispatch branch runs. -/
theorem invalid_signature_rejected (hmac : String → String → String)
    (secret : String) (p : List (String × JSValue))
    (h : lookupV p "sign" ≠ JSValue.str (hmac secret (callbackSignString p))) :
    paymentCallback hmac secret p = ⟨400, "Invalid signature", .noop⟩ := by
  unfold paymentCallback
  rw [if_neg h]

theorem invalid_signature_rejected_witness :
    paymentCallback mockHmac "secret" [("status", JSValue.str "succeeded")]
      = ⟨400, "Invalid signature", StatusAction.noop⟩ :=
  invalid_signature_rejected mockHmac "secret"
    [("status", JSValue.str "succeeded")] (by decide)

/-- C6: a callback whose signature verifies is acknowledged with HTTP 200
and body "OK" whatever status string it carries; a status outside
succeeded/failed/canceled (such as "refunded") dispatches to no terminal
action. -/
theorem verified_callback_acknowledged (hmac : String → String → String)
    (secret : String) (p : List (String × JSValue))
    (h : lookupV p "sign" = JSValue.str (hmac secret (callbackSignString p))) :
    paymentCallback hmac secret p
        = ⟨200, "OK", statusAction (lookupV (eraseKey p "sign") "status")⟩
    ∧ ∀ v : JSValue, v ≠ .str "succeeded" → v ≠ .str "failed" →
        v ≠ .str "canceled" → statusAction v = .noop := by
  constructor
  · unfold paymentCallback
    rw [if_pos h]
  · intro v h1 h2 h3
    unfold statusAction
    split
    all_goals simp_all

theorem verified_callback_acknowledged_witness :
    paymentCallback mockHmac "secret"
        [("sign", JSValue.str "status=refunded"), ("status", JSValue.str "refunded")]
      = ⟨200, "OK", StatusAction.noop⟩ := by
  have h := verified_callback_acknowledged mockHmac "secret"
    [("sign", JSValue.str "status=refunded"), ("status", JSValue.str "refunded")]
    (by decide)
  exact h.1.trans (by decide)

/-- C7: a create-payment request whose amount, order id, or email is
missing or empty is rejected with HTTP 400, success false and the
descriptive message, and no payment request is built, signed or
submitted. -/
theorem missing_field_validation (hmac : String → String → String)
    (secret merchantId baseUrl : String) (req : CreateReq)
    (h : req.amount = .undef ∨ req.amount = .str "" ∨ req.orderId = .undef
        ∨ req.orderId = .str "" ∨ req.email = .undef ∨ req.email = .str "") :
    createPayment hmac secret merchantId baseUrl req
        = .validationError 400 false "Необходимые поля: amount, orderId, email"
    ∧ ∀ d, createPayment hmac secret merchantId baseUrl req
        ≠ .request d := by
  have hcond : (truthy req.amount && truthy req.orderId && truthy req.email)
      = false := by
    rcases h with h | h | h | h | h | h <;> simp [h, truthy]
  constructor
  · simp [createPayment, hcond]
  · intro d
    simp [createPayment, hcond]

theorem missing_field_validation_witness :
    createPayment mockHmac "secret" "m" "https://shop.example"
        ⟨.str "50", .undef, .str "a@b.com", .undef, .undef, .undef⟩
      = .validationError 400 false "Необходимые поля: amount, orderId, email" :=
  (missing_field_validation mockHmac "secret" "m" "https://shop.example"
    ⟨.str "50", .undef, .str "a@b.com", .undef, .undef, .undef⟩
    (Or.inr (Or.inr (Or.inl rfl)))).1

/-- C9: the callback verification path is total: for every payload the
handler answers either the 400 signature rejection or the 200
acknowledgment, never the 500 catch branch — a missing or malformed `sign`
field merely fails the strict comparison. -/
theorem verification_total (hmac : String → String → String)
    (secret : String) (p : List (String × JSValue)) :
    (paymentCallback hmac secret p = ⟨400, "Invalid signature", .noop⟩
      ∨ (paymentCallback hmac secret p).httpStatus = 200)
    ∧ (paymentCallback hmac secret p).httpStatus ≠ 500 := by
  unfold paymentCallback
  by_cases h : lookupV p "sign"
      = JSValue.str (hmac secret (callbackSignString p))
  · rw [if_pos h]
    exact ⟨Or.inr rfl, by simp⟩
  · rw [if_neg h]
    exact ⟨Or.inl rfl, by simp⟩

/-- C10: the canonical encoding is not injective: the distinct pruned field
mappings {a: "1&b=2"} and {a: "1", b: "2"} canonicalize to the same string
(values are inserted verbatim, so one value can impersonate extra
`key=value` pairs), hence they also sign identically under every MAC. -/
theorem canonical_encoding_not_injective (hmac : String → String → String)
    (S : String) :
    canonicalEncode [("a", JSValue.str "1&b=2")]
        = canonicalEncode [("a", JSValue.str "1"), ("b", JSValue.str "2")]
    ∧ ([("a", JSValue.str "1&b=2")] : List (String × JSValue))
        ≠ [("a", JSValue.str "1"), ("b", JSValue.str "2")]
    ∧ pruneEmpty [("a", JSValue.str "1&b=2")] = [("a", JSValue.str "1&b=2")]
    ∧ pruneEmpty [("a", JSValue.str "1"), ("b", JSValue.str "2")]
        = [("a", JSValue.str "1"), ("b", JSValue.str "2")]
    ∧ signFields hmac S [("a", JSValue.str "1&b=2")]
        = signFields hmac S [("a", JSValue.str "1"), ("b", JSValue.str "2")] := by
  have h : signStringOf (pruneEmpty [("a", JSValue.str "1&b=2")])
      = signStringOf (pruneEmpty
          [("a", JSValue.str "1"), ("b", JSValue.str "2")]) := by decide
  exact ⟨h, by decide, by decide, by decide, congrArg (hmac S) h⟩

/-- C1 (amended): for a field mapping with pairwise-distinct keys, no
reserved "sign" key and no empty-valued entries, verifying the payload the
signing path produces from it succeeds; and changing any one value to one
with a different canonical rendering makes verification of the original
signature fail, under the idealization that the MAC is injective in the
message for the fixed secret. -/
theorem verification_symmetry (hmac : String → String → String) (S : String)
    (F : List (String × JSValue)) (k : String) (v' : JSValue)
    (hnd : (keysOf F).Nodup) (hsig : "sign" ∉ keysOf F)
    (hne : ∀ p ∈ F, isEmptyVal p.2 = false)
    (hinj : ∀ m₁ m₂, hmac S m₁ = hmac S m₂ → m₁ = m₂)
    (hk : k ∈ keysOf F) (hv : jsStr v' ≠ jsStr (lookupV F k)) :
    paymentCallback hmac S (signedPayload hmac S F)
        = ⟨200, "OK", statusAction (lookupV F "status")⟩
    ∧ paymentCallback hmac S
        (setKey F k v' ++ [("sign", .str (signFields hmac S F))])
        = ⟨400, "Invalid signature", .noop⟩ := by
  have hkeys : ∀ p ∈ F, p.1 ≠ "sign" := by
    intro p hp h
    exact hsig (h ▸ List.mem_map_of_mem Prod.fst hp)
  have hprune : pruneEmpty F = F := pruneEmpty_eq_self F hne
  have hsigF : signFields hmac S F = hmac S (signStringOf F) := by
    unfold signFields
    rw [hprune]
  constructor
  · have hlook : lookupV (signedPayload hmac S F) "sign"
        = .str (signFields hmac S F) := by
      unfold signedPayload
      rw [lookupV_append_right F _ "sign" hkeys]
      simp [lookupV]
    have herase : eraseKey (signedPayload hmac S F) "sign" = F :=
      eraseKey_append_sign F "sign" _ hkeys
    have hcond : lookupV (signedPayload hmac S F) "sign"
        = JSValue.str (hmac S (callbackSignString (signedPayload hmac S F))) := by
      rw [hlook, hsigF]
      unfold callbackSignString
      rw [herase]
    unfold paymentCallback
    rw [if_pos hcond, herase]
  · have hkeys' : ∀ p ∈ setKey F k v', p.1 ≠ "sign" := by
      intro p hp h
      apply hsig
      have hmem : p.1 ∈ keysOf (setKey F k v') :=
        List.mem_map_of_mem Prod.fst hp
      rwa [keysOf_setKey, h] at hmem
    have hlook' : lookupV
        (setKey F k v' ++ [("sign", .str (signFields hmac S F))]) "sign"
        = .str (signFields hmac S F) := by
      rw [lookupV_append_right _ _ "sign" hkeys']
      simp [lookupV]
    have herase' : eraseKey
        (setKey F k v' ++ [("sign", .str (signFields hmac S F))]) "sign"
        = setKey F k v' := eraseKey_append_sign _ "sign" _ hkeys'
    have hcond : lookupV
        (setKey F k v' ++ [("sign", .str (signFields hmac S F))]) "sign"
        ≠ JSValue.str (hmac S (callbackSignString
            (setKey F k v' ++ [("sign", .str (signFields hmac S F))]))) := by
      rw [hlook']
      unfold callbackSignString
      rw [herase', hsigF]
      intro hstr
      have hmeq : hmac S (signStringOf F)
          = hmac S (signStringOf (setKey F k v')) := by
        exact congrArg (fun w => match w with | JSValue.str s => s | _ => "") hstr
      exact signString_setKey_ne F k v' hnd hk hv (hinj _ _ hmeq).symm
    unfold paymentCallback
    rw [if_neg hcond]

theorem verification_symmetry_witness :
    paymentCallback mockHmac "secret"
        (signedPayload mockHmac "secret" [("status", JSValue.str "succeeded")])
      = ⟨200, "OK", StatusAction.succeeded⟩
    ∧ paymentCallback mockHmac "secret"
        (setKey [("status", JSValue.str "succeeded")] "status" (JSValue.str "failed")
          ++ [("sign", JSValue.str (signFields mockHmac "secret"
                [("status", JSValue.str "succeeded")]))])
      = ⟨400, "Invalid signature", StatusAction.noop⟩ := by
  have h := verification_symmetry mockHmac "secret"
    [("status", JSValue.str "succeeded")] "status" (JSValue.str "failed")
    (by decide) (by decide) (by decide) (fun m₁ m₂ hm => hm)
    (by decide) (by decide)
  exact ⟨h.1.trans (by decide), h.2⟩

/-- C1 (counterexample): with the identity MAC, (a) a field mapping holding
an empty-valued entry fails verification of its own signed payload — the
signing path prunes the entry and the verification path does not — and (b)
mutating the string value "null" to the JSON null after signing leaves
verification succeeding, because both values render identically in the
canonical string; both refute the claimed symmetry and tamper-detection at
these explicit inputs. -/
theorem verification_symmetry_cex :
    paymentCallback mockHmac "secret"
        (signedPayload mockHmac "secret"
          [("customer_phone", JSValue.str ""), ("order_id", JSValue.str "X")])
      = ⟨400, "Invalid signature", StatusAction.noop⟩
    ∧ paymentCallback mockHmac "secret"
        (setKey [("a", JSValue.str "null"), ("b", JSValue.str "x")] "a" JSValue.null
          ++ [("sign", JSValue.str (signFields mockHmac "secret"
                [("a", JSValue.str "null"), ("b", JSValue.str "x")]))])
      = ⟨200, "OK", StatusAction.noop⟩
    ∧ JSValue.null ≠ JSValue.str "null" :=
  ⟨by decide, by decide, by decide⟩

/-- C2 (amended): entries whose value is the empty string, null or
undefined are removed before canonicalization on the signing path — no such
key survives into the pruned set the HMAC covers — while the verification
path canonicalizes the callback payload minus its `sign` field with no
pruning at all. -/
theorem pruning_on_signing_path (l : List (String × JSValue)) (k : String)
    (v : JSValue) (hnd : (keysOf l).Nodup) (hmem : (k, v) ∈ l)
    (hemp : isEmptyVal v = true) :
    k ∉ keysOf (pruneEmpty l)
    ∧ (∀ p ∈ pruneEmpty l, isEmptyVal p.2 = false)
    ∧ (∀ hmac secret, signFields hmac secret l
        = hmac secret (signStringOf (pruneEmpty l)))
    ∧ (∀ hmac secret p, paymentCallback hmac secret p
        = if lookupV p "sign"
            = JSValue.str (hmac secret (signStringOf (eraseKey p "sign")))
          then ⟨200, "OK", statusAction (lookupV (eraseKey p "sign") "status")⟩
          else ⟨400, "Invalid signature", .noop⟩) := by
  refine ⟨?_, ?_, fun hmac secret => rfl, fun hmac secret p => rfl⟩
  · intro hkmem
    obtain ⟨q, hq, hqk⟩ := List.mem_map.mp hkmem
    have hql : q ∈ l := List.mem_of_mem_filter hq
    have hqne : isEmptyVal q.2 = false := by
      have hf := List.of_mem_filter hq
      simpa using hf
    have hq2 : (k, q.2) ∈ l := by
      rw [← hqk]
      simpa using hql
    have hqv : q.2 = v := keysOf_nodup_val_eq l k q.2 v hnd hq2 hmem
    rw [hqv] at hqne
    rw [hemp] at hqne
    cases hqne
  · intro p hp
    have hf := List.of_mem_filter hp
    simpa using hf

theorem pruning_on_signing_path_witness :
    "a" ∉ keysOf (pruneEmpty [("a", JSValue.str ""), ("b", JSValue.str "1")]) :=
  (pruning_on_signing_path [("a", JSValue.str ""), ("b", JSValue.str "1")] "a"
    (JSValue.str "") (by decide) (by decide) (by decide)).1

/-- C2 (counterexample): the callback handler canonicalizes without
pruning: for the payload {a: "", order_id: "X", sign: s} the canonical
string it actually compares against contains the empty-valued key `a` and
differs from the pruned canonical string, and a callback signed over the
pruned canonical (as the claim prescribes) is rejected with 400. -/
theorem pruning_on_verification_path_cex :
    callbackSignString
        [("a", JSValue.str ""), ("order_id", JSValue.str "X"),
         ("sign", JSValue.str "s")]
      = "a=&order_id=X"
    ∧ signStringOf (pruneEmpty (eraseKey
        [("a", JSValue.str ""), ("order_id", JSValue.str "X"),
         ("sign", JSValue.str "s")] "sign"))
      = "order_id=X"
    ∧ ("a=&order_id=X" : String) ≠ "order_id=X"
    ∧ paymentCallback mockHmac "secret"
        [("a", JSValue.str ""), ("order_id", JSValue.str "X"),
         ("sign", JSValue.str "order_id=X")]
      = ⟨400, "Invalid signature", StatusAction.noop⟩ :=
  ⟨by decide, by decide, by decide, by decide⟩

/-- C4: in the demo-fallback variant, when the configured merchant id is
the demo sentinel, the callback handler performs no signature verification:
every payload — whatever its `sign` field holds, present or not — is
answered 200 "OK" with the status dispatch run on it, and payloads that
agree outside their `sign` field get identical results. -/
theorem demo_callback_skips_verification (hmac : String → String → String)
    (secret merchantId : String) (h : merchantId = "demo_merchant_id") :
    (∀ p, paymentCallbackDemo hmac secret merchantId p
        = ⟨200, "OK", statusAction (lookupV p "status")⟩)
    ∧ (∀ p₁ p₂, eraseKey p₁ "sign" = eraseKey p₂ "sign" →
        paymentCallbackDemo hmac secret merchantId p₁
          = paymentCallbackDemo hmac secret merchantId p₂) := by
  have hmain : ∀ p, paymentCallbackDemo hmac secret merchantId p
      = ⟨200, "OK", statusAction (lookupV p "status")⟩ := by
    intro p
    unfold paymentCallbackDemo
    rw [if_neg (by simp [h])]
  refine ⟨hmain, fun p₁ p₂ hep => ?_⟩
  rw [hmain p₁, hmain p₂]
  have hst : lookupV p₁ "status" = lookupV p₂ "status" := by
    rw [← lookupV_eraseKey_ne p₁ "sign" "status" (by decide),
        ← lookupV_eraseKey_ne p₂ "sign" "status" (by decide), hep]
  rw [hst]

theorem demo_callback_skips_verification_witness :
    paymentCallbackDemo mockHmac "secret" "demo_merchant_id"
        [("sign", JSValue.str "garbage"), ("status", JSValue.str "succeeded")]
      = ⟨200, "OK", StatusAction.succeeded⟩ := by
  have h := demo_callback_skips_verification mockHmac "secret"
    "demo_merchant_id" rfl
  exact (h.1 [("sign", JSValue.str "garbage"),
    ("status", JSValue.str "succeeded")]).trans (by decide)

/-- C8 (amended): for every create-payment request with numeric amount a,
the amount field of the built payment request is Math.round(a*100), where
Math.round rounds to the nearest integer with ties toward positive
infinity; for nonnegative amounts this coincides with
round-half-away-from-zero (so 100.00 yields 10000). -/
theorem amount_normalization (merchantId baseUrl : String) (req : CreateReq)
    (a : ℚ) (ha : req.amount = .num a) :
    lookupV (buildPaymentData merchantId baseUrl req) "amount"
        = .num ((jsRound (a * 100) : ℤ) : ℚ)
    ∧ (0 ≤ a → jsRound (a * 100) = roundHalfAwayFromZero (a * 100)) := by
  constructor
  · simp [buildPaymentData, lookupV, amountMinor, ha]
  · intro hge
    exact jsRound_away (a * 100) (by linarith)

theorem amount_normalization_witness :
    lookupV (buildPaymentData "m" "https://shop.example"
        ⟨.num 100, .str "ORD1", .str "a@b.com", .undef, .undef, .undef⟩)
        "amount"
      = .num ((jsRound ((100 : ℚ) * 100) : ℤ) : ℚ) :=
  (amount_normalization "m" "https://shop.example"
    ⟨.num 100, .str "ORD1", .str "a@b.com", .undef, .undef, .undef⟩
    100 rfl).1

/-- C8 (counterexample): at the request amount -1/8 — a decimal number
that passes the truthiness validation — the built amount field is -12 =
Math.round(-12.5), while round-half-away-from-zero of -12.5 is -13, so the
claimed rounding rule does not match the code. -/
theorem amount_normalization_cex :
    lookupV (buildPaymentData "m" "https://shop.example"
        ⟨.num (-1/8), .str "ORD1", .str "a@b.com", .undef, .undef, .undef⟩)
        "amount"
      = .num ((-12 : ℤ) : ℚ)
    ∧ roundHalfAwayFromZero ((-1/8 : ℚ) * 100) = -13
    ∧ ((-12 : ℤ) ≠ -13)
    ∧ truthy (.num (-1/8)) = true := by
  refine ⟨?_, ?_, by decide, ?_⟩
  · have h1 : lookupV (buildPaymentData "m" "https://shop.example"
        ⟨.num (-1/8), .str "ORD1", .str "a@b.com", .undef, .undef, .undef⟩)
        "amount"
        = .num ((jsRound ((-1/8 : ℚ) * 100) : ℤ) : ℚ) := by
      simp [buildPaymentData, lookupV, amountMinor]
    rw [h1]
    have h2 : jsRound ((-1/8 : ℚ) * 100) = -12 := by
      unfold jsRound
      norm_num
    rw [h2]
  · have hf : (⌊((-1 : ℚ)/8 * 100)⌋ : ℤ) = -13 := by norm_num
    unfold roundHalfAwayFromZero
    rw [hf]
    norm_num
  · simp only [truthy, decide_eq_true_eq]
    norm_num
